import Mathlib

/-!
Shallow embedding of the core of `src/main.go` (an interactive agent loop
bridging an OpenAI-style chat-completion API with an MCP tool server), and
proofs of the specification's claims about it.

Conventions of the embedding:
* Go `map[string]any` JSON values are modelled by `JVal`, and a decoded
  argument object by an association list `List (String × JVal)`.
* Fallible external calls (MCP initialize / list-tools / call-tool, JSON
  unmarshalling, completion requests) are modelled as `Except String _`
  valued parameters standing for the result the remote end produces; the
  program logic that consumes those results is translated from the source.
* `log.Fatalf` / returned errors are modelled by explicit error outcomes;
  a Go runtime panic (out-of-range index, failed type assertion) is
  modelled by an explicit `panicked` outcome.
* Terminal display calls (`printCodeBox`) are modelled as trace events so
  that their relative order with the tool invocation is provable.
-/

namespace MCPAgent

/-- JSON values, as produced by Go `encoding/json` unmarshalling into
`map[string]any` (objects become association lists here). -/
inductive JVal where
  | null : JVal
  | bool (b : Bool) : JVal
  | num (n : Int) : JVal
  | str (s : String) : JVal
  | arr (elems : List JVal) : JVal
  | obj (fields : List (String × JVal)) : JVal

/-- Go map indexing `args[key]` on a decoded argument object: `none` models
the nil interface value a missing key yields. -/
def lookupArg (args : List (String × JVal)) (key : String) : Option JVal :=
  (args.find? (fun p => p.1 = key)).map (fun p => p.2)

/-- `mcp.ToolInputSchema`: `Type`, `Properties` (a JSON object) and
`Required` (a list of property names). -/
structure ToolInputSchema where
  typ : String
  properties : List (String × JVal)
  required : List String

/-- `mcp.Tool`: one capability the MCP server exposes. -/
structure Tool where
  name : String
  description : String
  inputSchema : ToolInputSchema

/-- The parameter schema `convertToolsSchema` builds for one tool
(the `schema` map in main.go: key "type", key "properties", and key
"required" which may be absent, hence `Option`). -/
structure FunctionParameters where
  typ : String
  properties : List (String × JVal)
  required : Option (List String)

/-- `openai.ChatCompletionToolParam` restricted to the fields main.go
fills in: function name, description, parameters. -/
structure ChatCompletionToolParam where
  name : String
  description : String
  parameters : FunctionParameters

/-- `convertToolsSchema` (main.go lines 187-217): one schema per tool;
type fixed to "object"; properties passed through when non-empty and an
empty object synthesized otherwise; "required" included only when
non-empty. -/
def convertToolsSchema (tools : List Tool) : List ChatCompletionToolParam :=
  tools.map (fun tool =>
    { name := tool.name
      description := tool.description
      parameters :=
        { typ := "object"
          properties :=
            if tool.inputSchema.properties.length > 0 then
              tool.inputSchema.properties
            else
              []
          required :=
            if tool.inputSchema.required.length > 0 then
              some tool.inputSchema.required
            else
              none } })

/-- Reinterpret a produced schema as a tool descriptor, so that
`convertToolsSchema` can be applied to its own output: the schema's
parameter object becomes the descriptor's input schema, an absent
"required" list becoming the empty list. -/
def schemaAsTool (p : ChatCompletionToolParam) : Tool :=
  { name := p.name
    description := p.description
    inputSchema :=
      { typ := p.parameters.typ
        properties := p.parameters.properties
        required := p.parameters.required.getD [] } }

/-- `mcp.Content` items a tool call returns: `TextContent` plus the other
concrete content kinds of the protocol (image, audio, embedded resource),
each carrying its payload fields. -/
inductive MCPContent where
  | textContent (text : String) : MCPContent
  | imageContent (data mimeType : String) : MCPContent
  | audioContent (data mimeType : String) : MCPContent
  | embeddedResource (resource : String) : MCPContent

/-- `mcp.AsTextContent`: the type assertion to `TextContent`, returning its
`Text` field on success. -/
def asTextContent : MCPContent → Option String
  | MCPContent.textContent t => some t
  | _ => none

/-- Go `fmt.Sprintf` with verb `v` applied to a content item: the struct
value rendered as its brace-delimited field list. The exact field spelling
is immaterial to the program; what the source guarantees is that the
rendering is a deterministic function of the item and, being a struct
rendering, starts with an opening brace. -/
def sprintfV : MCPContent → String
  | MCPContent.textContent t => "\x7b" ++ ("text " ++ t ++ "\x7d")
  | MCPContent.imageContent d m => "\x7b" ++ ("image " ++ d ++ " " ++ m ++ "\x7d")
  | MCPContent.audioContent d m => "\x7b" ++ ("audio " ++ d ++ " " ++ m ++ "\x7d")
  | MCPContent.embeddedResource r => "\x7b" ++ ("embeddedResource " ++ r ++ "\x7d")

/-- Result-text normalization of `callTool` (main.go lines 278-288): the
first content item's text when it is textual, its `%v` rendering otherwise,
and the zero value `""` when the content sequence is empty. -/
def resultTextOf (content : List MCPContent) : String :=
  match content with
  | [] => ""
  | item :: _ =>
    match asTextContent item with
    | some t => t
    | none => sprintfV item

/-- The `Function` field of a tool call request: tool name plus the
model-supplied encoded argument string. -/
structure ToolCallFunction where
  name : String
  arguments : String

/-- `openai.ChatCompletionMessageToolCall`: call identifier plus function. -/
structure ToolCall where
  id : String
  function : ToolCallFunction

/-- Display/invocation events `callTool` emits, in order: the code box
printed for the recognized code-execution tool, and the remote invocation
itself. -/
inductive TraceEvent where
  | codeBox (code : String) : TraceEvent
  | invoke (name : String) (args : List (String × JVal)) : TraceEvent

/-- Outcome of one `callTool`: the returned result text, a returned error
(which main treats as fatal), or a Go runtime panic from the unchecked
`args["code"].(string)` assertion. Each outcome carries the trace of
events emitted before the function finished. -/
inductive CallResult where
  | ok (result : String) (events : List TraceEvent) : CallResult
  | err (emsg : String) (events : List TraceEvent) : CallResult
  | panicked (events : List TraceEvent) : CallResult

/-- The event trace of a call outcome. -/
def CallResult.trace : CallResult → List TraceEvent
  | CallResult.ok _ es => es
  | CallResult.err _ es => es
  | CallResult.panicked es => es

/-- Whether the call returned a result (no error, no panic). -/
def CallResult.isOk : CallResult → Bool
  | CallResult.ok _ _ => true
  | _ => false

/-- The tail of `callTool` after argument decoding and the code-box side
effect: invoke the remote tool (the `remote` parameter models what
`mcpClient.CallTool` returns) and normalize the result. -/
def finishCall (remote : String → List (String × JVal) → Except String (List MCPContent))
    (name : String) (args : List (String × JVal)) (events : List TraceEvent) : CallResult :=
  let events := events ++ [TraceEvent.invoke name args]
  match remote name args with
  | Except.error e => CallResult.err ("failed to call tool: " ++ e) events
  | Except.ok content => CallResult.ok (resultTextOf content) events

/-- `callTool` (main.go lines 251-289): unmarshal the argument string
(`unmarshal` models `json.Unmarshal` on it), print the code box when the
tool is `sandbox_run_code` — via the unchecked assertion
`args["code"].(string)`, which panics when the key is absent or not a
string — then invoke the remote tool and normalize its result. -/
def callTool (unmarshal : String → Except String (List (String × JVal)))
    (remote : String → List (String × JVal) → Except String (List MCPContent))
    (toolCall : ToolCall) : CallResult :=
  match unmarshal toolCall.function.arguments with
  | Except.error e => CallResult.err ("failed to unmarshal tool arguments: " ++ e) []
  | Except.ok args =>
    if toolCall.function.name = "sandbox_run_code" then
      match lookupArg args "code" with
      | some (JVal.str code) =>
        finishCall remote toolCall.function.name args [TraceEvent.codeBox code]
      | _ => CallResult.panicked []
    else
      finishCall remote toolCall.function.name args []

/-- A conversation message (`params.Messages` entries): system and user
directives, an assistant turn (`Message.ToParam()`), or a tool result
(`openai.ToolMessage(result, toolCall.ID)`). -/
inductive Msg where
  | system (content : String) : Msg
  | user (content : String) : Msg
  | assistant (content : String) (toolCalls : List ToolCall) : Msg
  | toolMessage (content : String) (toolCallID : String) : Msg

/-- The call identifier a tool-result message carries (`""` for the other
variants, which carry none). -/
def Msg.callID : Msg → String
  | Msg.toolMessage _ id => id
  | _ => ""

/-- The assistant message of one completion choice: text content plus the
requested tool calls. -/
structure AssistantMessage where
  content : String
  toolCalls : List ToolCall

/-- One completion choice. -/
structure Choice where
  message : AssistantMessage

/-- One completion response: its list of choices (the source indexes
`Choices[0]` without checking non-emptiness). -/
structure Completion where
  choices : List Choice

/-- Outcome of dispatching the tool calls of one turn. -/
inductive DispatchOutcome where
  | ok (msgs : List Msg) : DispatchOutcome
  | fatal (msgs : List Msg) (emsg : String) : DispatchOutcome
  | panicked (msgs : List Msg) : DispatchOutcome

/-- The inner `for _, toolCall := range toolCalls` of main (lines 130-140):
dispatch each call in order, appending one tool-result message per call;
a returned error hits `log.Fatalf` (fatal, no further call dispatched, no
message appended for the failing call), a panic aborts likewise. -/
def dispatchAll (d : ToolCall → CallResult) : List ToolCall → List Msg → DispatchOutcome
  | [], msgs => DispatchOutcome.ok msgs
  | tc :: rest, msgs =>
    match d tc with
    | CallResult.ok result _ => dispatchAll d rest (msgs ++ [Msg.toolMessage result tc.id])
    | CallResult.err emsg _ => DispatchOutcome.fatal msgs emsg
    | CallResult.panicked _ => DispatchOutcome.panicked msgs

/-- Outcome of the agent loop, with the conversation built so far and the
number of completion calls made. `outOfResponses` marks exhaustion of the
finite response oracle (the real loop would block on another completion
call); the fatal and panicked outcomes model `log.Fatalf` and Go runtime
panics. -/
inductive LoopOutcome where
  | done (msgs : List Msg) (turns : Nat) : LoopOutcome
  | fatalCompletion (msgs : List Msg) (turns : Nat) : LoopOutcome
  | fatalTool (msgs : List Msg) (emsg : String) (turns : Nat) : LoopOutcome
  | panickedChoices (msgs : List Msg) (turns : Nat) : LoopOutcome
  | panickedDispatch (msgs : List Msg) (turns : Nat) : LoopOutcome
  | outOfResponses (msgs : List Msg) (turns : Nat) : LoopOutcome

/-- The `for { ... }` agent loop of main (lines 110-142), driven by the
list of responses the completion API returns (`Except.error` modelling a
failed completion call). Each iteration: make one completion call; reading
`Choices[0]` of an empty choice list panics; if the first choice requests
no tool calls, break; otherwise append the assistant message, dispatch
every requested call appending one tool-result message each, and loop.
Display of assistant text does not affect state and is not tracked here. -/
def runLoop (d : ToolCall → CallResult) :
    List (Except String Completion) → List Msg → Nat → LoopOutcome
  | [], msgs, turns => LoopOutcome.outOfResponses msgs turns
  | resp :: rest, msgs, turns =>
    match resp with
    | Except.error _ => LoopOutcome.fatalCompletion msgs (turns + 1)
    | Except.ok completion =>
      match completion.choices with
      | [] => LoopOutcome.panickedChoices msgs (turns + 1)
      | choice :: _ =>
        let toolCalls := choice.message.toolCalls
        if toolCalls.isEmpty then
          LoopOutcome.done msgs (turns + 1)
        else
          match dispatchAll d toolCalls
              (msgs ++ [Msg.assistant choice.message.content toolCalls]) with
          | DispatchOutcome.ok msgs2 => runLoop d rest msgs2 (turns + 1)
          | DispatchOutcome.fatal msgs2 emsg => LoopOutcome.fatalTool msgs2 emsg (turns + 1)
          | DispatchOutcome.panicked msgs2 => LoopOutcome.panickedDispatch msgs2 (turns + 1)

/-- The result text of a successful dispatch (`""` when the dispatch did
not succeed; only used under a success hypothesis). -/
def resultOf (d : ToolCall → CallResult) (tc : ToolCall) : String :=
  match d tc with
  | CallResult.ok r _ => r
  | _ => ""

/-- Whether a completion response succeeds, carries at least one choice,
and that choice requests zero tool calls — the loop's exit condition. -/
def respNoToolCalls : Except String Completion → Bool
  | Except.ok c =>
    match c.choices with
    | choice :: _ => choice.message.toolCalls.isEmpty
    | [] => false
  | Except.error _ => false

/-- Index of the first response at which the loop's exit condition holds. -/
def firstStop (cs : List (Except String Completion)) : Nat :=
  (cs.takeWhile (fun r => !respNoToolCalls r)).length

/-- `toolList` (main.go lines 219-249): initialize the MCP session, list
the tools, and treat an empty tool list as fatal. `initRes` and `listRes`
model what `mcpClient.Initialize` and `mcpClient.ListTools` return;
`log.Fatal` is modelled by the error outcome. -/
def toolList (initRes : Except String Unit)
    (listRes : Except String (List Tool)) : Except String (List Tool) :=
  match initRes with
  | Except.error e => Except.error ("Failed to initialize MCP client: " ++ e)
  | Except.ok _ =>
    match listRes with
    | Except.error e => Except.error ("Failed to list tools: " ++ e)
    | Except.ok toolsResult =>
      if toolsResult.isEmpty then
        Except.error "No tools available from MCP server"
      else
        Except.ok toolsResult

/-- Discovery as a whole (main.go lines 69-80 plus `toolList`): starting
the MCP client (`startRes` models `client.NewStreamableHttpClient` /
`mcpClient.Start`, i.e. reachability of the server) followed by
`toolList`. Every failure is `log.Fatal`: the error outcome, with no
retry anywhere in the definition. -/
def discover (startRes : Except String Unit) (initRes : Except String Unit)
    (listRes : Except String (List Tool)) : Except String (List Tool) :=
  match startRes with
  | Except.error e => Except.error ("Failed to start MCP client: " ++ e)
  | Except.ok _ => toolList initRes listRes

/-! ## Helper lemmas -/

lemma brace_append_ne_empty (s : String) : ("\x7b" ++ s) ≠ "" := by
  intro h
  have h2 := congrArg String.length h
  simp [String.length_append] at h2
  exact absurd h2.1 (by decide)

lemma sprintfV_ne_empty (item : MCPContent) : sprintfV item ≠ "" := by
  cases item <;> exact brace_append_ne_empty _

/-! ## Claims about result normalization and schema translation -/

/-- Claim C3: Tool dispatch result normalization: with a non-empty content
sequence, the result text is the first item's text when that item is
textual and otherwise the deterministic `%v` rendering of the first item,
which is never empty; with an empty content sequence the result is the
empty string (not an error). -/
theorem tool_result_normalization (content : List MCPContent) :
    (content = [] → resultTextOf content = "") ∧
    (∀ item rest, content = item :: rest →
      (∀ s, asTextContent item = some s → resultTextOf content = s) ∧
      (asTextContent item = none →
        resultTextOf content = sprintfV item ∧ resultTextOf content ≠ "")) := by
  constructor
  · intro h; subst h; rfl
  · intro item rest h; subst h
    constructor
    · intro s hs; simp [resultTextOf, hs]
    · intro hn
      constructor
      · simp [resultTextOf, hn]
      · simp only [resultTextOf, hn]
        exact sprintfV_ne_empty item

/-- Witness for C3 at a concrete non-textual first item. -/
theorem tool_result_normalization_witness :
    resultTextOf [MCPContent.imageContent "d0" "image/png"] =
        sprintfV (MCPContent.imageContent "d0" "image/png") ∧
      resultTextOf [MCPContent.imageContent "d0" "image/png"] ≠ "" :=
  ((tool_result_normalization [MCPContent.imageContent "d0" "image/png"]).2
    (MCPContent.imageContent "d0" "image/png") [] rfl).2 rfl

/-- Claim C4: Schema translation shape: one schema per descriptor; each schema's
type field is "object"; declared properties pass through verbatim, an
empty properties object is synthesized otherwise; the required list is
included exactly when the descriptor's is non-empty, and then matches it
exactly. -/
theorem schema_translation_shape (tools : List Tool) ( _hne : tools ≠ []) :
    (convertToolsSchema tools).length = tools.length ∧
    ∀ i, (hi : i < tools.length) →
      ∃ s, (convertToolsSchema tools)[i]? = some s ∧
        s.name = tools[i].name ∧
        s.description = tools[i].description ∧
        s.parameters.typ = "object" ∧
        (tools[i].inputSchema.properties ≠ [] →
            s.parameters.properties = tools[i].inputSchema.properties) ∧
        (tools[i].inputSchema.properties = [] → s.parameters.properties = []) ∧
        (tools[i].inputSchema.required ≠ [] →
            s.parameters.required = some (tools[i].inputSchema.required)) ∧
        (tools[i].inputSchema.required = [] → s.parameters.required = none) := by
  constructor
  · simp [convertToolsSchema]
  · intro i hi
    refine ⟨{ name := tools[i].name
              description := tools[i].description
              parameters :=
                { typ := "object"
                  properties :=
                    if tools[i].inputSchema.properties.length > 0 then
                      tools[i].inputSchema.properties
                    else []
                  required :=
                    if tools[i].inputSchema.required.length > 0 then
                      some tools[i].inputSchema.required
                    else none } }, ?_, rfl, rfl, rfl, ?_, ?_, ?_, ?_⟩
    · simp [convertToolsSchema, List.getElem?_eq_getElem, hi]
    · intro hp
      cases h : tools[i].inputSchema.properties with
      | nil => exact absurd h hp
      | cons a l => simp [h]
    · intro hp; simp [hp]
    · intro hr
      cases h : tools[i].inputSchema.required with
      | nil => exact absurd h hr
      | cons a l => simp [h]
    · intro hr; simp [hr]

/-- Witness for C4 at a one-descriptor list, instantiated at index 0. -/
theorem schema_translation_shape_witness :
    ∃ s, (convertToolsSchema [Tool.mk "sandbox_run_code" "run code"
          (ToolInputSchema.mk "object" [("code", JVal.obj [])] ["code"])])[0]? = some s ∧
      s.name = "sandbox_run_code" ∧
      s.description = "run code" ∧
      s.parameters.typ = "object" ∧
      (([("code", JVal.obj [])] : List (String × JVal)) ≠ [] →
          s.parameters.properties = [("code", JVal.obj [])]) ∧
      (([("code", JVal.obj [])] : List (String × JVal)) = [] → s.parameters.properties = []) ∧
      ((["code"] : List String) ≠ [] → s.parameters.required = some ["code"]) ∧
      ((["code"] : List String) = [] → s.parameters.required = none) :=
  (schema_translation_shape
    [Tool.mk "sandbox_run_code" "run code"
      (ToolInputSchema.mk "object" [("code", JVal.obj [])] ["code"])]
    (by simp)).2 0 (by decide)

/-- Claim C5: Discovery failure: `discover` fails whenever the server cannot be
reached (start fails), initialization fails, or zero tools are reported —
the error outcome modelling the fatal, unretried `log.Fatal` — and
succeeds, returning the tools, whenever all steps succeed with one or
more tools. -/
theorem discovery_failure (startRes initRes : Except String Unit)
    (listRes : Except String (List Tool)) :
    (((∃ e, startRes = Except.error e) ∨ (∃ e, initRes = Except.error e) ∨
        (∃ e, listRes = Except.error e) ∨ listRes = Except.ok []) →
      ∃ emsg, discover startRes initRes listRes = Except.error emsg) ∧
    (∀ tools, startRes = Except.ok () → initRes = Except.ok () →
      listRes = Except.ok tools → tools ≠ [] →
      discover startRes initRes listRes = Except.ok tools) := by
  constructor
  · intro h
    cases startRes with
    | error e0 => exact ⟨_, rfl⟩
    | ok u0 =>
      cases initRes with
      | error e1 => exact ⟨_, rfl⟩
      | ok u1 =>
        cases listRes with
        | error e2 => exact ⟨_, rfl⟩
        | ok tools =>
          rcases h with ⟨e, he⟩ | ⟨e, he⟩ | ⟨e, he⟩ | he
          · exact absurd he (by simp)
          · exact absurd he (by simp)
          · exact absurd he (by simp)
          · rw [he]; exact ⟨_, rfl⟩
  · intro tools h0 h1 h2 hne
    subst h0; subst h1; subst h2
    have : tools.isEmpty = false := by
      cases tools with
      | nil => exact absurd rfl hne
      | cons a l => rfl
    simp [discover, toolList, this]

/-- Witness for C5: a successful discovery of one tool, and a failing one
on an empty tool list. -/
theorem discovery_failure_witness :
    discover (Except.ok ()) (Except.ok ())
        (Except.ok [Tool.mk "sandbox_run_code" "run code"
          (ToolInputSchema.mk "object" [] [])]) =
      Except.ok [Tool.mk "sandbox_run_code" "run code"
        (ToolInputSchema.mk "object" [] [])] ∧
    ∃ emsg, discover (Except.ok ()) (Except.ok ())
        (Except.ok ([] : List Tool)) = Except.error emsg :=
  ⟨(discovery_failure (Except.ok ()) (Except.ok ())
      (Except.ok [Tool.mk "sandbox_run_code" "run code"
        (ToolInputSchema.mk "object" [] [])])).2 _ rfl rfl rfl (by simp),
   (discovery_failure (Except.ok ()) (Except.ok ())
      (Except.ok ([] : List Tool))).1 (Or.inr (Or.inr (Or.inr rfl)))⟩

/-- Claim C8: Translation idempotence: reinterpreting the translated schemas as
descriptors and translating again yields the same schemas, for every
descriptor list. -/
theorem translate_idempotent (tools : List Tool) :
    convertToolsSchema ((convertToolsSchema tools).map schemaAsTool) =
      convertToolsSchema tools := by
  simp only [convertToolsSchema, List.map_map]
  apply List.map_congr_left
  intro t _
  simp only [Function.comp, schemaAsTool]
  cases hp : t.inputSchema.properties with
  | nil =>
    cases hr : t.inputSchema.required with
    | nil => simp
    | cons b m => simp
  | cons a l =>
    cases hr : t.inputSchema.required with
    | nil => simp
    | cons b m => simp

/-- Claim C7: Code-display side effect: for a dispatched call named
`sandbox_run_code` whose decoded arguments carry a string "code" value,
the trace is the code-box event followed by the invocation event — the
raw code is rendered before the tool is invoked — and this holds for
every `remote` behaviour, i.e. independently of whether the invocation
succeeds or fails. -/
theorem code_display_before_invocation
    (unmarshal : String → Except String (List (String × JVal)))
    (remote : String → List (String × JVal) → Except String (List MCPContent))
    (tc : ToolCall) (args : List (String × JVal)) (code : String)
    (hname : tc.function.name = "sandbox_run_code")
    (hargs : unmarshal tc.function.arguments = Except.ok args)
    (hcode : lookupArg args "code" = some (JVal.str code)) :
    (callTool unmarshal remote tc).trace =
      [TraceEvent.codeBox code, TraceEvent.invoke tc.function.name args] := by
  simp only [callTool, hargs, hname, hcode, if_pos]
  unfold finishCall
  cases remote "sandbox_run_code" args <;> simp [CallResult.trace]

/-- Witness for C7: the round-trip example with arguments
`{"code": "1+1"}` against `sandbox_run_code`. -/
theorem code_display_before_invocation_witness :
    (callTool (fun _ => Except.ok [("code", JVal.str "1+1")])
        (fun _ _ => Except.ok [MCPContent.textContent "2"])
        (ToolCall.mk "call_1" (ToolCallFunction.mk "sandbox_run_code" "code 1+1"))).trace =
      [TraceEvent.codeBox "1+1",
       TraceEvent.invoke "sandbox_run_code" [("code", JVal.str "1+1")]] :=
  code_display_before_invocation
    (fun _ => Except.ok [("code", JVal.str "1+1")])
    (fun _ _ => Except.ok [MCPContent.textContent "2"])
    (ToolCall.mk "call_1" (ToolCallFunction.mk "sandbox_run_code" "code 1+1"))
    [("code", JVal.str "1+1")] "1+1" rfl rfl rfl

/-- Claim C9: Implicit: for a `sandbox_run_code` call whose decoded arguments
lack a "code" key or carry a non-string value there, `callTool` panics
(the unchecked `args["code"].(string)` assertion) with no events emitted,
rather than returning an error outcome. -/
theorem missing_code_argument_panics
    (unmarshal : String → Except String (List (String × JVal)))
    (remote : String → List (String × JVal) → Except String (List MCPContent))
    (tc : ToolCall) (args : List (String × JVal))
    (hname : tc.function.name = "sandbox_run_code")
    (hargs : unmarshal tc.function.arguments = Except.ok args)
    (hcode : ∀ s, lookupArg args "code" ≠ some (JVal.str s)) :
    callTool unmarshal remote tc = CallResult.panicked [] := by
  simp only [callTool, hargs, hname, if_pos]

/-- Witness for C9: a call with decoded arguments lacking a "code" key. -/
theorem missing_code_argument_panics_witness :
    callTool (fun _ => Except.ok [])
        (fun _ _ => Except.ok [MCPContent.textContent "2"])
        (ToolCall.mk "call_1" (ToolCallFunction.mk "sandbox_run_code" "empty object")) =
      CallResult.panicked [] :=
  missing_code_argument_panics
    (fun _ => Except.ok [])
    (fun _ _ => Except.ok [MCPContent.textContent "2"])
    (ToolCall.mk "call_1" (ToolCallFunction.mk "sandbox_run_code" "empty object"))
    [] rfl rfl (by intro s h; simp [lookupArg] at h)

/-- Claim C10: Implicit: a completion response whose choice list is empty makes
the loop panic (the unchecked `Choices[0]` read), not fail with a
completion error: the outcome is `panickedChoices`, with the conversation
unchanged. -/
theorem empty_choices_panics (d : ToolCall → CallResult) (completion : Completion)
    (rest : List (Except String Completion)) (msgs : List Msg) (t : Nat)
    (h : completion.choices = []) :
    runLoop d (Except.ok completion :: rest) msgs t =
      LoopOutcome.panickedChoices msgs (t + 1) := by
  simp only [runLoop, h]

/-- Witness for C10: a concrete empty-choices response. -/
theorem empty_choices_panics_witness :
    runLoop (fun _ => CallResult.ok "" []) [Except.ok (Completion.mk [])] [] 0 =
      LoopOutcome.panickedChoices [] 1 :=
  empty_choices_panics (fun _ => CallResult.ok "" []) (Completion.mk []) [] [] 0 rfl

/-! ## Lemmas about one turn's dispatch -/

lemma dispatchAll_ok (d : ToolCall → CallResult) (tcs : List ToolCall)
    (hd : ∀ tc ∈ tcs, (d tc).isOk = true) :
    ∀ msgs, dispatchAll d tcs msgs =
      DispatchOutcome.ok
        (msgs ++ tcs.map (fun tc => Msg.toolMessage (resultOf d tc) tc.id)) := by
  induction tcs with
  | nil => intro msgs; simp [dispatchAll]
  | cons tc rest ih =>
    intro msgs
    have htc := hd tc (by simp)
    cases hq : d tc with
    | ok r es =>
      simp only [dispatchAll, hq]
      rw [ih (fun u hu => hd u (by simp [hu]))]
      simp [resultOf, hq]
    | err e es => rw [hq] at htc; exact absurd htc (by simp [CallResult.isOk])
    | panicked es => rw [hq] at htc; exact absurd htc (by simp [CallResult.isOk])

lemma dispatchAll_fatal (d : ToolCall → CallResult) (pre : List ToolCall)
    (tc : ToolCall) (post : List ToolCall) (emsg : String) (es : List TraceEvent)
    (hpre : ∀ u ∈ pre, (d u).isOk = true)
    (htc : d tc = CallResult.err emsg es) :
    ∀ msgs, dispatchAll d (pre ++ tc :: post) msgs =
      DispatchOutcome.fatal
        (msgs ++ pre.map (fun u => Msg.toolMessage (resultOf d u) u.id)) emsg := by
  induction pre with
  | nil => intro msgs; simp [dispatchAll, htc]
  | cons u us ih =>
    intro msgs
    have hu := hpre u (by simp)
    cases hq : d u with
    | ok r es2 =>
      simp only [List.cons_append, dispatchAll, hq]
      exact Eq.trans (ih (fun v hv => hpre v (by simp [hv])) (msgs ++ [Msg.toolMessage r u.id]))
        (by simp [resultOf, hq])
    | err e2 es2 => rw [hq] at hu; exact absurd hu (by simp [CallResult.isOk])
    | panicked es2 => rw [hq] at hu; exact absurd hu (by simp [CallResult.isOk])

/-! ## Lemmas about the loop's stopping index -/

lemma firstStop_cons_stop (r : Except String Completion)
    (rest : List (Except String Completion)) (h : respNoToolCalls r = true) :
    firstStop (r :: rest) = 0 := by
  simp [firstStop, List.takeWhile_cons, h]

lemma firstStop_cons_go (r : Except String Completion)
    (rest : List (Except String Completion)) (h : respNoToolCalls r = false) :
    firstStop (r :: rest) = firstStop rest + 1 := by
  simp [firstStop, List.takeWhile_cons, h]

lemma firstStop_getElem :
    ∀ (cs : List (Except String Completion)) (hne : cs ≠ []),
      respNoToolCalls (cs.getLast hne) = true →
      ∃ r, cs[firstStop cs]? = some r ∧ respNoToolCalls r = true := by
  intro cs
  induction cs with
  | nil => intro hne; exact absurd rfl hne
  | cons r rest ih =>
    intro hne hlast
    by_cases h : respNoToolCalls r = true
    · exact ⟨r, by simp [firstStop_cons_stop r rest h], h⟩
    · have hf : respNoToolCalls r = false := by
        cases hb : respNoToolCalls r with
        | true => exact absurd hb h
        | false => rfl
      have hne2 : rest ≠ [] := by
        intro h0
        subst h0
        simp [List.getLast] at hlast
        exact h hlast
      rw [List.getLast_cons hne2] at hlast
      obtain ⟨x, hx1, hx2⟩ := ih hne2 hlast
      exact ⟨x, by simp [firstStop_cons_go r rest hf, hx1], hx2⟩

lemma runLoop_done_general (d : ToolCall → CallResult)
    (hd : ∀ tc, (d tc).isOk = true) :
    ∀ (cs : List (Except String Completion)),
      (∀ r ∈ cs, ∃ c choice chs, r = Except.ok c ∧ c.choices = choice :: chs) →
      ∀ (hne : cs ≠ []), respNoToolCalls (cs.getLast hne) = true →
      ∀ msgs t, ∃ finalMsgs,
        runLoop d cs msgs t = LoopOutcome.done finalMsgs (t + (firstStop cs + 1)) := by
  intro cs
  induction cs with
  | nil => intro _ hne; exact absurd rfl hne
  | cons r rest ih =>
    intro hwf hne hlast msgs t
    obtain ⟨c, choice, chs, hr, hch⟩ := hwf r (by simp)
    subst hr
    by_cases hstop : respNoToolCalls (Except.ok c) = true
    · have hemp : choice.message.toolCalls.isEmpty = true := by
        simpa [respNoToolCalls, hch] using hstop
      refine ⟨msgs, ?_⟩
      rw [firstStop_cons_stop _ rest hstop]
      simp only [runLoop, hch, hemp, if_pos]
    · have hf : respNoToolCalls (Except.ok c) = false := by
        cases hb : respNoToolCalls (Except.ok c) with
        | true => exact absurd hb hstop
        | false => rfl
      have hemp : choice.message.toolCalls.isEmpty = false := by
        cases hb : choice.message.toolCalls.isEmpty with
        | true =>
          exact absurd (by simp [respNoToolCalls, hch, hb]) hstop
        | false => rfl
      have hne2 : rest ≠ [] := by
        intro h0
        subst h0
        simp [List.getLast] at hlast
        exact hstop hlast
      rw [List.getLast_cons hne2] at hlast
      obtain ⟨fm, hfm⟩ := ih (fun u hu => hwf u (by simp [hu])) hne2 hlast
        (msgs ++ [Msg.assistant choice.message.content choice.message.toolCalls]
              ++ choice.message.toolCalls.map
                  (fun tc => Msg.toolMessage (resultOf d tc) tc.id))
        (t + 1)
      refine ⟨fm, ?_⟩
      simp only [runLoop, hch, hemp]
      rw [dispatchAll_ok d choice.message.toolCalls (fun tc _ => hd tc)]
      simp only [List.append_assoc] at hfm ⊢
      rw [hfm, firstStop_cons_go _ rest hf]
      have harith : t + 1 + (firstStop rest + 1) = t + (firstStop rest + 1 + 1) := by omega
      rw [harith]
      simp

/-- Claim C1: Agent loop termination: for every response sequence whose
responses are well-formed (each succeeds with at least one choice), with
every dispatch succeeding, and whose final response carries zero tool
call requests, the loop terminates normally; it exits at the first
response carrying zero tool call requests (`firstStop`), all earlier
responses carrying tool calls, and the number of turns equals the number
of completion calls made, `firstStop cs + 1`. -/
theorem agent_loop_termination (d : ToolCall → CallResult)
    (cs : List (Except String Completion)) (msgs : List Msg)
    (hwf : ∀ r ∈ cs, ∃ c choice chs, r = Except.ok c ∧ c.choices = choice :: chs)
    (hd : ∀ tc, (d tc).isOk = true)
    (hne : cs ≠ [])
    (hlast : respNoToolCalls (cs.getLast hne) = true) :
    (∃ finalMsgs,
      runLoop d cs msgs 0 = LoopOutcome.done finalMsgs (firstStop cs + 1)) ∧
    ∃ r, cs[firstStop cs]? = some r ∧ respNoToolCalls r = true := by
  constructor
  · obtain ⟨fm, hfm⟩ := runLoop_done_general d hd cs hwf hne hlast msgs 0
    exact ⟨fm, by simpa using hfm⟩
  · exact firstStop_getElem cs hne hlast

/-- Witness for C1: a single response with text "42" and no tool calls
terminates the loop in one turn. -/
theorem agent_loop_termination_witness :
    (∃ finalMsgs,
      runLoop (fun _ => CallResult.ok "42" [])
          [Except.ok (Completion.mk [Choice.mk (AssistantMessage.mk "42" [])])] [] 0 =
        LoopOutcome.done finalMsgs
          (firstStop [Except.ok (Completion.mk [Choice.mk (AssistantMessage.mk "42" [])])]
            + 1)) ∧
    ∃ r,
      [Except.ok (Completion.mk [Choice.mk (AssistantMessage.mk "42" [])])][firstStop
          [Except.ok (Completion.mk [Choice.mk (AssistantMessage.mk "42" [])])]]? = some r ∧
      respNoToolCalls r = true :=
  agent_loop_termination (fun _ => CallResult.ok "42" [])
    [Except.ok (Completion.mk [Choice.mk (AssistantMessage.mk "42" [])])] []
    (by
      intro r hr
      simp only [List.mem_singleton] at hr
      subst hr
      exact ⟨_, _, _, rfl, rfl⟩)
    (fun tc => rfl) (by simp) rfl

/-- Claim C2: For a turn whose response carries tool call requests, the loop
appends the assistant message and then exactly one tool-result message
per requested call, in request order, before the next completion call;
the tool-result identifiers are the request identifiers, an order-
preserving one-to-one match. -/
theorem tool_turn_appends_results (d : ToolCall → CallResult)
    (completion : Completion) (choice : Choice) (chs : List Choice)
    (rest : List (Except String Completion)) (msgs : List Msg) (t : Nat)
    (hch : completion.choices = choice :: chs)
    (hne : choice.message.toolCalls ≠ [])
    (hd : ∀ tc ∈ choice.message.toolCalls, (d tc).isOk = true) :
    runLoop d (Except.ok completion :: rest) msgs t =
      runLoop d rest
        (msgs ++ [Msg.assistant choice.message.content choice.message.toolCalls]
              ++ choice.message.toolCalls.map
                  (fun tc => Msg.toolMessage (resultOf d tc) tc.id)) (t + 1) ∧
    (choice.message.toolCalls.map
        (fun tc => Msg.toolMessage (resultOf d tc) tc.id)).map Msg.callID =
      choice.message.toolCalls.map ToolCall.id := by
  constructor
  · have hemp : choice.message.toolCalls.isEmpty = false := by
      cases h : choice.message.toolCalls with
      | nil => exact absurd h hne
      | cons a l => rfl
    simp only [runLoop, hch, hemp]
    rw [dispatchAll_ok d choice.message.toolCalls hd]
    simp [List.append_assoc]
  · simp [List.map_map, Msg.callID, Function.comp]

/-- Witness for C2: one requested call dispatched to a result "2". -/
theorem tool_turn_appends_results_witness :
    runLoop (fun _ => CallResult.ok "2" [])
        [Except.ok (Completion.mk [Choice.mk (AssistantMessage.mk ""
          [ToolCall.mk "call_1" (ToolCallFunction.mk "sandbox_run_code" "empty object")])])] [] 0 =
      runLoop (fun _ => CallResult.ok "2" []) []
        ([] ++ [Msg.assistant ""
            [ToolCall.mk "call_1" (ToolCallFunction.mk "sandbox_run_code" "empty object")]]
          ++ [Msg.toolMessage "2" "call_1"]) 1 ∧
    ([Msg.toolMessage "2" "call_1"] : List Msg).map Msg.callID = ["call_1"] :=
  tool_turn_appends_results (fun _ => CallResult.ok "2" [])
    (Completion.mk [Choice.mk (AssistantMessage.mk ""
      [ToolCall.mk "call_1" (ToolCallFunction.mk "sandbox_run_code" "empty object")])])
    (Choice.mk (AssistantMessage.mk ""
      [ToolCall.mk "call_1" (ToolCallFunction.mk "sandbox_run_code" "empty object")]))
    [] [] [] 0 rfl (by simp) (by intro tc _; rfl)

/-- Claim C6: Malformed tool-call arguments: a requested call whose argument
payload fails to decode makes `callTool` return the decode error with no
events, and the turn aborts fatally: the loop ends in `fatalTool`, with
tool-result messages appended only for the calls preceding the failing
one — none for the failing call itself. -/
theorem malformed_arguments_fatal
    (unmarshal : String → Except String (List (String × JVal)))
    (remote : String → List (String × JVal) → Except String (List MCPContent))
    (completion : Completion) (choice : Choice) (chs : List Choice)
    (rest : List (Except String Completion)) (msgs : List Msg) (t : Nat)
    (pre post : List ToolCall) (tc : ToolCall) (e : String)
    (hch : completion.choices = choice :: chs)
    (htcs : choice.message.toolCalls = pre ++ tc :: post)
    (hbad : unmarshal tc.function.arguments = Except.error e)
    (hpre : ∀ u ∈ pre, (callTool unmarshal remote u).isOk = true) :
    callTool unmarshal remote tc =
      CallResult.err ("failed to unmarshal tool arguments: " ++ e) [] ∧
    runLoop (callTool unmarshal remote) (Except.ok completion :: rest) msgs t =
      LoopOutcome.fatalTool
        (msgs ++ [Msg.assistant choice.message.content choice.message.toolCalls]
              ++ pre.map (fun u =>
                  Msg.toolMessage (resultOf (callTool unmarshal remote) u) u.id))
        ("failed to unmarshal tool arguments: " ++ e) (t + 1) := by
  have hcall : callTool unmarshal remote tc =
      CallResult.err ("failed to unmarshal tool arguments: " ++ e) [] := by
    simp only [callTool, hbad]
  refine ⟨hcall, ?_⟩
  have hemp : choice.message.toolCalls.isEmpty = false := by
    rw [htcs]; cases pre <;> rfl
  simp only [runLoop, hch, hemp]
  rw [show choice.message.toolCalls = pre ++ tc :: post from htcs]
  rw [dispatchAll_fatal (callTool unmarshal remote) pre tc post _ _ hpre hcall]
  simp [htcs]

/-- Witness for C6: a single call with an undecodable argument string. -/
theorem malformed_arguments_fatal_witness :
    callTool (fun _ => Except.error "unexpected end of JSON input")
        (fun _ _ => Except.ok [])
        (ToolCall.mk "call_1" (ToolCallFunction.mk "sandbox_run_code" "truncated payload")) =
      CallResult.err
        ("failed to unmarshal tool arguments: " ++ "unexpected end of JSON input") [] ∧
    runLoop (callTool (fun _ => Except.error "unexpected end of JSON input")
        (fun _ _ => Except.ok []))
        [Except.ok (Completion.mk [Choice.mk (AssistantMessage.mk ""
          [ToolCall.mk "call_1" (ToolCallFunction.mk "sandbox_run_code" "truncated payload")])])] [] 0 =
      LoopOutcome.fatalTool
        ([] ++ [Msg.assistant ""
            [ToolCall.mk "call_1" (ToolCallFunction.mk "sandbox_run_code" "truncated payload")]] ++ [])
        ("failed to unmarshal tool arguments: " ++ "unexpected end of JSON input") 1 :=
  malformed_arguments_fatal
    (fun _ => Except.error "unexpected end of JSON input")
    (fun _ _ => Except.ok [])
    (Completion.mk [Choice.mk (AssistantMessage.mk ""
      [ToolCall.mk "call_1" (ToolCallFunction.mk "sandbox_run_code" "truncated payload")])])
    (Choice.mk (AssistantMessage.mk ""
      [ToolCall.mk "call_1" (ToolCallFunction.mk "sandbox_run_code" "truncated payload")]))
    [] [] [] 0 [] []
    (ToolCall.mk "call_1" (ToolCallFunction.mk "sandbox_run_code" "truncated payload"))
    "unexpected end of JSON input" rfl rfl rfl (by simp)

end MCPAgent
